import Mathlib

/-!
# Shallow embedding of `src/vector.h` (`Vector<T, Allocator>`)

The container state is the triple of private members `buffer_`, `size_`,
`capacity_` (lines 552-556 of the source).  A buffer is modelled as
`Option (Nat × List (Option Int))`: `none` is the null pointer, otherwise
the block id handed out by the allocator together with the slot contents
(`some x` = a constructed element holding `x`, `none` = raw storage).
Element values are specialised to `Int`; a default-constructed element is `0`.

Element constructors may throw.  This is modelled by a gas counter threaded
through every operation: each successful `AllocTraits::construct` call
consumes one unit of gas, and a construct attempted with gas `0` throws.
Destructors never throw (matching the source's `noexcept` assumptions).
Allocation itself is modelled as always succeeding; every `allocate`,
`deallocate`, `construct` and `destroy` performed by an operation is
recorded in an event trace so that block/element pairing can be inspected.
Fresh block ids are drawn from a counter `f` threaded alongside the gas.
-/

namespace CVec

/-- An allocator-level event: the four primitives of `std::allocator_traits`
used by the source (`allocate`, `deallocate`, `construct`, `destroy`). -/
inductive AEvent where
  | alloc (bid : Nat) (cnt : Nat)
  | dealloc (bid : Nat) (cnt : Nat)
  | construct (bid : Nat) (idx : Nat)
  | destroy (bid : Nat) (idx : Nat)
deriving DecidableEq, Repr

/-- The container state: `buffer_`, `size_`, `capacity_` of `Vector`. -/
structure Vec where
  buffer : Option (Nat × List (Option Int))
  size : Nat
  capacity : Nat
deriving DecidableEq, Repr

/-- A default-constructed `Vector` (line 30): null buffer, size 0, capacity 0. -/
def Vec.empty : Vec := ⟨none, 0, 0⟩

/-- Block id of the current buffer (0 when the buffer is null; the id of a
null buffer is never consulted by any operation's live path). -/
def bidOf (v : Vec) : Nat :=
  match v.buffer with
  | none => 0
  | some p => p.1

/-- Slot contents of the current buffer (empty for the null buffer). -/
def slotsOf (v : Vec) : List (Option Int) :=
  match v.buffer with
  | none => []
  | some p => p.2

/-- Replace the slot list of the buffer, keeping its block id. -/
def replSlots (v : Vec) (s : List (Option Int)) : Option (Nat × List (Option Int)) :=
  match v.buffer with
  | none => none
  | some p => some (p.1, s)

/-- Write one slot of the buffer in place (a single `construct`/`destroy`). -/
def setSlot (b : Option (Nat × List (Option Int))) (i : Nat) (o : Option Int) :
    Option (Nat × List (Option Int)) :=
  match b with
  | none => none
  | some p => some (p.1, p.2.set i o)

/-- The live element values, i.e. the contents of `buffer_[0 .. size_)`
(the range `begin() .. end()`, lines 477-491). -/
def Vec.vals (v : Vec) : List Int :=
  match v.buffer with
  | none => []
  | some p => (p.2.take v.size).map (fun o => o.getD 0)

/-- `buffer_[i]`, the unchecked `operator[]` read (line 226). -/
def Vec.read (v : Vec) (i : Nat) : Int :=
  match v.buffer with
  | none => 0
  | some p => (p.2.getD i none).getD 0

/-- The `deallocate(alloc_, buffer_, capacity_)` call used by every release
of the current block; a no-op (no event) on the null buffer. -/
def deallocEvs (v : Vec) : List AEvent :=
  match v.buffer with
  | none => []
  | some p => [AEvent.dealloc p.1 v.capacity]

/-- Spec §3 invariants 1-3 as a boolean predicate: `size_ ≤ capacity_`,
`buffer_` null iff `capacity_ == 0`, slots `[0, size_)` constructed and
slots `[size_, capacity_)` raw. -/
def wfb (v : Vec) : Bool :=
  match v.buffer with
  | none => decide (v.size ≤ v.capacity) && decide (v.capacity = 0)
  | some p =>
      decide (v.size ≤ v.capacity) && decide (v.capacity ≠ 0) &&
      decide (p.2.length = v.capacity) &&
      (p.2.take v.size).all (fun o => o.isSome) &&
      (p.2.drop v.size).all (fun o => o.isNone)

/-- Result of a fallible construction loop (`CopyIterRange`, `MoveIterTo`,
and the in-place construct loops of `Resize` / the constructors): the slots
after the loop, how many constructs completed (`curr_size` / `count` in the
source), the remaining gas, the events emitted, and whether the loop ran to
completion (`ok = false` means a construct threw). -/
structure CSOut where
  slots : List (Option Int)
  done : Nat
  gas : Nat
  tr : List AEvent
  ok : Bool
deriving DecidableEq, Repr

/-- A loop of `AllocTraits::construct(alloc_, base + start + k, vs[k])`
for `k = 0, 1, ...`, stopping when a construct throws (gas exhausted).
No cleanup happens here; each caller performs its own catch-block cleanup. -/
def constructSeq (bid : Nat) (slots : List (Option Int)) (start : Nat) :
    List Int → Nat → CSOut
  | [], g => ⟨slots, 0, g, [], true⟩
  | _ :: _, 0 => ⟨slots, 0, 0, [], false⟩
  | x :: xs, g + 1 =>
      let r := constructSeq bid (slots.set start (some x)) (start + 1) xs g
      ⟨r.slots, r.done + 1, r.gas, AEvent.construct bid start :: r.tr, r.ok⟩

/-- A loop of `AllocTraits::destroy(alloc_, base + start + k)` for
`k = 0 .. cnt`, in ascending index order as in every destroy loop of the
source.  Destruction never fails. -/
def destroyRange (bid : Nat) (slots : List (Option Int)) (start cnt : Nat) :
    List (Option Int) × List AEvent :=
  match cnt with
  | 0 => (slots, [])
  | k + 1 =>
      let r := destroyRange bid (slots.set start none) (start + 1) k
      (r.1, AEvent.destroy bid start :: r.2)

/-- Outcome of a fallible public operation: the container afterwards,
whether the call exited by throwing, remaining gas, next fresh block id,
and the allocator events it performed, in order. -/
structure Res where
  out : Vec
  threw : Bool
  gas : Nat
  fresh : Nat
  tr : List AEvent
deriving DecidableEq, Repr

/-- `Vector::EmplaceBack` (lines 409-459).  Three paths:
`size_ < capacity_` constructs in place; `capacity_ == 0` allocates one slot;
otherwise a new block of `capacity_ * 2` is allocated, the new element is
constructed at `new_buff + size_`, the old elements are migrated by
`MoveIterTo`, the old elements destroyed and the old block released.
Each catch block is translated statement by statement; in particular every
catch calls `AllocTraits::destroy` on the slot whose construct threw. -/
def emplaceBack (v : Vec) (x : Int) (g f : Nat) : Res :=
  if v.size < v.capacity then
    if g = 0 then
      ⟨⟨setSlot v.buffer v.size none, v.size, v.capacity⟩, true, 0, f,
        [AEvent.destroy (bidOf v) v.size]⟩
    else
      ⟨⟨setSlot v.buffer v.size (some x), v.size + 1, v.capacity⟩, false, g - 1, f,
        [AEvent.construct (bidOf v) v.size]⟩
  else if v.capacity = 0 then
    if g = 0 then
      ⟨v, true, 0, f + 1,
        [AEvent.alloc f 1, AEvent.destroy f v.size, AEvent.dealloc f 1]⟩
    else
      ⟨⟨some (f, (List.replicate 1 none).set v.size (some x)), v.size + 1, 1⟩,
        false, g - 1, f + 1,
        [AEvent.alloc f 1, AEvent.construct f v.size]⟩
  else
    if g = 0 then
      ⟨v, true, 0, f + 1,
        [AEvent.alloc f (v.capacity * 2), AEvent.destroy f v.size,
         AEvent.dealloc f (v.capacity * 2)]⟩
    else
      let base := (List.replicate (v.capacity * 2) none).set v.size (some x)
      let m := constructSeq f base 0 v.vals (g - 1)
      if m.ok then
        let d := destroyRange (bidOf v) (slotsOf v) 0 v.size
        ⟨⟨some (f, m.slots), v.size + 1, v.capacity * 2⟩, false, m.gas, f + 1,
          AEvent.alloc f (v.capacity * 2) :: AEvent.construct f v.size ::
            (m.tr ++ d.2 ++ deallocEvs v)⟩
      else
        ⟨v, true, m.gas, f + 1,
          AEvent.alloc f (v.capacity * 2) :: AEvent.construct f v.size ::
            (m.tr ++ [AEvent.destroy f v.size, AEvent.dealloc f (v.capacity * 2)])⟩

/-- `Vector::Resize(size)` and `Vector::Resize(size, value)` (lines 245-362),
which differ only in the constructed fill value (`T()`, i.e. `0`, versus
`value`; the two catch blocks in the `size <= capacity_` branch perform the
same destroys and the same final state).  The `size > capacity_` branch
allocates `size * 2`, constructs the tail `[size_, size)` in the new block,
then migrates `[0, size_)` via `MoveIterTo`, then destroys and releases the
old block.  Its catch destroys only `new_buff[size_ .. size_ + count)` where
`count` counts the tail constructs, and deallocates `new_buff` with the
still-unchanged `capacity_`. -/
def resizeFill (v : Vec) (n : Nat) (w : Int) (g f : Nat) : Res :=
  if n = v.size then ⟨v, false, g, f, []⟩
  else if n < v.size then
    let d := destroyRange (bidOf v) (slotsOf v) n (v.size - n)
    ⟨⟨replSlots v d.1, n, v.capacity⟩, false, g, f, d.2⟩
  else if n ≤ v.capacity then
    let c := constructSeq (bidOf v) (slotsOf v) v.size (List.replicate (n - v.size) w) g
    if c.ok then
      ⟨⟨replSlots v c.slots, n, v.capacity⟩, false, c.gas, f, c.tr⟩
    else
      let d := destroyRange (bidOf v) c.slots v.size c.done
      ⟨⟨replSlots v d.1, v.size, v.capacity⟩, true, c.gas, f, c.tr ++ d.2⟩
  else
    let c := constructSeq f (List.replicate (n * 2) none) v.size
      (List.replicate (n - v.size) w) g
    if c.ok then
      let m := constructSeq f c.slots 0 v.vals c.gas
      if m.ok then
        let d := destroyRange (bidOf v) (slotsOf v) 0 v.size
        ⟨⟨some (f, m.slots), n, n * 2⟩, false, m.gas, f + 1,
          AEvent.alloc f (n * 2) :: (c.tr ++ m.tr ++ d.2 ++ deallocEvs v)⟩
      else
        let d := destroyRange f m.slots v.size c.done
        ⟨v, true, m.gas, f + 1,
          AEvent.alloc f (n * 2) :: (c.tr ++ m.tr ++ d.2 ++ [AEvent.dealloc f v.capacity])⟩
    else
      let d := destroyRange f c.slots v.size c.done
      ⟨v, true, c.gas, f + 1,
        AEvent.alloc f (n * 2) :: (c.tr ++ d.2 ++ [AEvent.dealloc f v.capacity])⟩

/-- `Vector::Resize(size)` (lines 245-303): the tail is default-constructed. -/
def resizeD (v : Vec) (n : Nat) (g f : Nat) : Res := resizeFill v n 0 g f

/-- `Vector::Resize(size, value)` (lines 304-362). -/
def resizeV (v : Vec) (n : Nat) (w : Int) (g f : Nat) : Res := resizeFill v n w g f

/-- `Vector::Reserve` (lines 363-382).  When growing, `new_buff` is allocated
inside the try block and the live elements are migrated by `MoveIterTo`; the
catch block only restores `capacity_` and `buffer_` — it does not destroy the
elements already constructed in `new_buff` and does not deallocate it. -/
def reserve (v : Vec) (c : Nat) (g f : Nat) : Res :=
  if v.capacity < c then
    let m := constructSeq f (List.replicate c none) 0 v.vals g
    if m.ok then
      let d := destroyRange (bidOf v) (slotsOf v) 0 v.size
      ⟨⟨some (f, m.slots), v.size, c⟩, false, m.gas, f + 1,
        AEvent.alloc f c :: (m.tr ++ d.2 ++ deallocEvs v)⟩
    else
      ⟨v, true, m.gas, f + 1, AEvent.alloc f c :: m.tr⟩
  else ⟨v, false, g, f, []⟩

/-- `Vector::ShrinkToFit` (lines 383-407).  On `size_ == 0` the block is
released and the buffer nulled; otherwise a block of exactly `size_` slots is
allocated and the elements migrated.  The catch block restores the backups
without destroying the migrated elements or deallocating `new_buff`. -/
def shrinkToFit (v : Vec) (g f : Nat) : Res :=
  if v.size = 0 then
    ⟨⟨none, 0, 0⟩, false, g, f, deallocEvs v⟩
  else
    let m := constructSeq f (List.replicate v.size none) 0 v.vals g
    if m.ok then
      let d := destroyRange (bidOf v) (slotsOf v) 0 v.size
      ⟨⟨some (f, m.slots), v.size, v.size⟩, false, m.gas, f + 1,
        AEvent.alloc f v.size :: (m.tr ++ d.2 ++ deallocEvs v)⟩
    else
      ⟨v, true, m.gas, f + 1, AEvent.alloc f v.size :: m.tr⟩

/-- `Vector::Vector(const Vector&)` (lines 83-99): copies `size_` and
`capacity_` first, and allocates/copies only when `size_ != 0` — in
particular a source with `size_ == 0` but `capacity_ != 0` yields a copy
with a null buffer and a nonzero capacity. -/
def copyCtor (v : Vec) (g f : Nat) : Res :=
  if v.size ≠ 0 then
    let c := constructSeq f (List.replicate v.capacity none) 0 v.vals g
    if c.ok then
      ⟨⟨some (f, c.slots), v.size, v.capacity⟩, false, c.gas, f + 1,
        AEvent.alloc f v.capacity :: c.tr⟩
    else
      let d := destroyRange f c.slots 0 c.done
      ⟨Vec.empty, true, c.gas, f + 1,
        AEvent.alloc f v.capacity :: (c.tr ++ d.2 ++ [AEvent.dealloc f v.capacity])⟩
  else ⟨⟨none, v.size, v.capacity⟩, false, g, f, []⟩

/-- `Vector::Vector(Vector&&)` (lines 101-106): steals the buffer pointer,
size and capacity via `std::exchange`, leaving the source null/0/0.
Returns (destination, source afterwards); performs no allocator calls. -/
def moveCtor (v : Vec) : Vec × Vec :=
  (⟨v.buffer, v.size, v.capacity⟩, ⟨none, 0, 0⟩)

/-- `Vector::operator=(Vector&&)` (lines 176-181) for distinct operands:
`Vector(std::move(other)).Swap(*this)` — the destination takes the source's
buffer wholesale, the source becomes empty, and the temporary's destructor
destroys the destination's old elements and releases its old block.
Returns (destination afterwards, source afterwards, events). -/
def moveAssign (dst src : Vec) : Vec × Vec × List AEvent :=
  let d := destroyRange (bidOf dst) (slotsOf dst) 0 dst.size
  (⟨src.buffer, src.size, src.capacity⟩, ⟨none, 0, 0⟩, d.2 ++ deallocEvs dst)

/-- `Vector::Vector(const std::initializer_list<T>&)` (lines 31-46):
`size_ = capacity_ = |init|`, allocates and copies when nonempty. -/
def ctorList (xs : List Int) (g f : Nat) : Res :=
  if xs.length ≠ 0 then
    let c := constructSeq f (List.replicate xs.length none) 0 xs g
    if c.ok then
      ⟨⟨some (f, c.slots), xs.length, xs.length⟩, false, c.gas, f + 1,
        AEvent.alloc f xs.length :: c.tr⟩
    else
      let d := destroyRange f c.slots 0 c.done
      ⟨Vec.empty, true, c.gas, f + 1,
        AEvent.alloc f xs.length :: (c.tr ++ d.2 ++ [AEvent.dealloc f xs.length])⟩
  else ⟨Vec.empty, false, g, f, []⟩

/-- A sequence of successful `PushBack` calls (lines 461-463 delegate to
`EmplaceBack`): each call is given enough gas (`size_ + 1` covers the new
element plus a full migration) so that it succeeds. -/
def pushAll (v : Vec) (f : Nat) : List Int → Vec
  | [] => v
  | x :: xs => pushAll (emplaceBack v x (v.size + 1) f).out (f + 1) xs

/-- The element sequence `*begin(), ..., *(end()-1)` that the comparison
operators traverse: `buffer_[i]` for `i = 0 .. size_`. -/
def seqVals (v : Vec) : List Int :=
  (List.range v.size).map (fun i => v.read i)

/-- `operator==` (lines 559-570): size check, then an index loop comparing
`lhs[i] != rhs[i]`. -/
def vecEq (a b : Vec) : Bool :=
  if a.size ≠ b.size then false
  else (List.range a.size).all (fun i => decide (a.read i = b.read i))

/-- The loop of `std::lexicographical_compare` over two dereferenced
iterator ranges, using only `operator<` on elements. -/
def lexCmpLoop : List Int → List Int → Bool
  | _, [] => false
  | [], _ :: _ => true
  | x :: xs, y :: ys =>
      if x < y then true else if y < x then false else lexCmpLoop xs ys

/-- `operator<` (lines 572-575): `std::lexicographical_compare` over
`[begin(), end())` of both sides. -/
def vecLt (a b : Vec) : Bool := lexCmpLoop (seqVals a) (seqVals b)

/-- `operator!=` (lines 577-580): `!(lhs == rhs)`. -/
def vecNe (a b : Vec) : Bool := !vecEq a b

/-- `operator>` (lines 582-585): `rhs < lhs`. -/
def vecGt (a b : Vec) : Bool := vecLt b a

/-- `operator<=` (lines 587-590): `!(lhs > rhs)`. -/
def vecLe (a b : Vec) : Bool := !vecGt a b

/-- `operator>=` (lines 592-595): `!(lhs < rhs)`. -/
def vecGe (a b : Vec) : Bool := !vecLt a b

/-- Number of `construct` events for slot `i` of block `b` in a trace. -/
def constructCount (tr : List AEvent) (b i : Nat) : Nat :=
  (tr.filter (fun e => e = AEvent.construct b i)).length

/-- Number of `destroy` events for slot `i` of block `b` in a trace. -/
def destroyCount (tr : List AEvent) (b i : Nat) : Nat :=
  (tr.filter (fun e => e = AEvent.destroy b i)).length

/-- The counts with which block `b` was allocated, in trace order. -/
def allocList (tr : List AEvent) (b : Nat) : List Nat :=
  tr.filterMap (fun e =>
    match e with
    | AEvent.alloc b2 c => if b2 = b then some c else none
    | _ => none)

/-- The counts with which block `b` was deallocated, in trace order. -/
def deallocList (tr : List AEvent) (b : Nat) : List Nat :=
  tr.filterMap (fun e =>
    match e with
    | AEvent.dealloc b2 c => if b2 = b then some c else none
    | _ => none)

/-- The canonical slot list of a well-formed buffer: constructed values
`vs` followed by raw slots up to the capacity. -/
def canonSlots (vs : List Int) (cap : Nat) : List (Option Int) :=
  vs.map some ++ List.replicate (cap - vs.length) none

theorem canonSlots_length (vs : List Int) (cap : Nat) (h : vs.length ≤ cap) :
    (canonSlots vs cap).length = cap := by
  simp [canonSlots]
  omega

/-- Taking one past a just-written slot splits off the written value. -/
theorem take_succ_set {α : Type} (a : α) :
    ∀ (l : List α) (i : Nat), i < l.length →
      (l.set i a).take (i + 1) = l.take i ++ [a] := by
  intro l
  induction l with
  | nil => intro i h; simp at h
  | cons b t ih =>
      intro i h
      cases i with
      | zero => simp
      | succ i =>
          simp only [List.set_cons_succ, List.take_succ_cons, List.cons_append]
          rw [ih i (by simpa using h)]

/-- A construction loop that is given enough gas completes, filling the
slots `[start, start + |xs|)` with `xs` and emitting one `construct` event
per element, in ascending order. -/
theorem constructSeq_ok (bid : Nat) (xs : List Int) :
    ∀ (slots : List (Option Int)) (start g : Nat),
      xs.length ≤ g → start + xs.length ≤ slots.length →
      constructSeq bid slots start xs g =
        ⟨slots.take start ++ xs.map some ++ slots.drop (start + xs.length),
         xs.length, g - xs.length,
         (List.range xs.length).map (fun i => AEvent.construct bid (start + i)),
         true⟩ := by
  induction xs with
  | nil =>
      intro slots start g _ _
      simp [constructSeq]
  | cons x xs ih =>
      intro slots start g hg hlen
      have hg2 : xs.length + 1 ≤ g := by simpa using hg
      have hlen2 : start + (xs.length + 1) ≤ slots.length := by simpa using hlen
      cases g with
      | zero => omega
      | succ g =>
          have hstart : start < slots.length := by omega
          have hrec := ih (slots.set start (some x)) (start + 1) g
            (by omega) (by simp; omega)
          simp only [constructSeq, hrec, CSOut.mk.injEq]
          refine ⟨?_, by simp, by simp, ?_, by trivial⟩
          · rw [take_succ_set _ _ _ hstart,
              List.drop_set_of_lt _ _ (by omega),
              show start + 1 + xs.length = start + (x :: xs).length from by
                simp only [List.length_cons]; omega]
            simp [List.append_assoc]
          · rw [show (x :: xs).length = xs.length + 1 from by simp,
              List.range_succ_eq_map, List.map_cons, List.map_map]
            refine congrArg₂ _ (by simp) ?_
            refine List.map_congr_left ?_
            intro i _
            refine congrArg _ ?_
            simp only [Function.comp, Nat.succ_eq_add_one]
            omega

/-- A construction loop whose gas runs out before the list is exhausted
throws: `ok = false`. -/
theorem constructSeq_fail (bid : Nat) (xs : List Int) :
    ∀ (slots : List (Option Int)) (start g : Nat), g < xs.length →
      (constructSeq bid slots start xs g).ok = false := by
  induction xs with
  | nil => intro _ _ g h; simp at h
  | cons x xs ih =>
      intro slots start g hg
      cases g with
      | zero => rfl
      | succ g =>
          simp only [constructSeq]
          exact ih _ _ g (by simpa using hg)

/-- The events of a destroy loop: one `destroy` per slot, ascending. -/
theorem destroyRange_tr (bid : Nat) :
    ∀ (cnt : Nat) (slots : List (Option Int)) (start : Nat),
      (destroyRange bid slots start cnt).2 =
        (List.range cnt).map (fun i => AEvent.destroy bid (start + i)) := by
  intro cnt
  induction cnt with
  | zero => intro slots start; simp [destroyRange]
  | succ k ih =>
      intro slots start
      simp only [destroyRange, ih, List.range_succ_eq_map, List.map_cons,
        List.map_map]
      refine congrArg₂ _ (by simp) ?_
      refine List.map_congr_left ?_
      intro i _
      simp [Nat.succ_eq_add_one]
      omega

/-- A list of all-constructed slots is the `some` image of its values. -/
theorem all_isSome_eq_map (l : List (Option Int))
    (h : l.all (fun o => o.isSome) = true) :
    (l.map (fun o => o.getD 0)).map some = l := by
  induction l with
  | nil => rfl
  | cons o t ih =>
      simp only [List.all_cons, Bool.and_eq_true] at h
      obtain ⟨ho, ht⟩ := h
      cases o with
      | none => simp at ho
      | some a => simp [ih ht]

/-- A list of all-raw slots is a replicate of `none`. -/
theorem all_isNone_eq_replicate (l : List (Option Int))
    (h : l.all (fun o => o.isNone) = true) :
    l = List.replicate l.length none := by
  induction l with
  | nil => rfl
  | cons o t ih =>
      simp only [List.all_cons, Bool.and_eq_true] at h
      obtain ⟨ho, ht⟩ := h
      cases o with
      | none =>
          rw [List.length_cons, List.replicate_succ]
          exact congrArg _ (ih ht)
      | some a => simp at ho

theorem wfb_none (sz cap : Nat) :
    wfb ⟨none, sz, cap⟩ = (decide (sz ≤ cap) && decide (cap = 0)) := rfl

theorem wfb_some (b : Nat) (sl : List (Option Int)) (sz cap : Nat) :
    wfb ⟨some (b, sl), sz, cap⟩ =
      (decide (sz ≤ cap) && decide (cap ≠ 0) && decide (sl.length = cap) &&
        (sl.take sz).all (fun o => o.isSome) &&
        (sl.drop sz).all (fun o => o.isNone)) := rfl

theorem vals_none (sz cap : Nat) : Vec.vals ⟨none, sz, cap⟩ = [] := rfl

theorem vals_some (b : Nat) (sl : List (Option Int)) (sz cap : Nat) :
    Vec.vals ⟨some (b, sl), sz, cap⟩ = (sl.take sz).map (fun o => o.getD 0) := rfl

theorem wf_size_le (v : Vec) (hv : wfb v = true) : v.size ≤ v.capacity := by
  obtain ⟨buf, sz, cap⟩ := v
  cases buf with
  | none =>
      rw [wfb_none] at hv
      simp only [Bool.and_eq_true, decide_eq_true_eq] at hv
      exact hv.1
  | some p =>
      obtain ⟨b, sl⟩ := p
      rw [wfb_some] at hv
      simp only [Bool.and_eq_true, decide_eq_true_eq] at hv
      exact hv.1.1.1.1

theorem wf_vals_length (v : Vec) (hv : wfb v = true) : v.vals.length = v.size := by
  have hle := wf_size_le v hv
  obtain ⟨buf, sz, cap⟩ := v
  cases buf with
  | none =>
      rw [wfb_none] at hv
      simp only [Bool.and_eq_true, decide_eq_true_eq] at hv
      rw [vals_none]
      simp only [List.length_nil]
      simp only at hle hv
      omega
  | some p =>
      obtain ⟨b, sl⟩ := p
      rw [wfb_some] at hv
      simp only [Bool.and_eq_true, decide_eq_true_eq] at hv
      rw [vals_some]
      simp only [List.length_map, List.length_take]
      have := hv.1.1.1.2
      simp only at hle ⊢
      omega

/-- A well-formed container is either the empty container shape or a buffer
in canonical form: its live values followed by raw slots. -/
theorem wf_destruct (v : Vec) (hv : wfb v = true) :
    (v.buffer = none ∧ v.size = 0 ∧ v.capacity = 0) ∨
    (∃ b, v.buffer = some (b, canonSlots v.vals v.capacity) ∧
      v.vals.length = v.size ∧ v.size ≤ v.capacity ∧ v.capacity ≠ 0) := by
  have hlen := wf_vals_length v hv
  obtain ⟨buf, sz, cap⟩ := v
  cases buf with
  | none =>
      rw [wfb_none] at hv
      simp only [Bool.and_eq_true, decide_eq_true_eq] at hv
      left
      simp only at hv ⊢
      exact ⟨trivial, by omega, hv.2⟩
  | some p =>
      obtain ⟨b, sl⟩ := p
      rw [wfb_some] at hv
      simp only [Bool.and_eq_true, decide_eq_true_eq] at hv
      obtain ⟨⟨⟨⟨h1, h2⟩, h3⟩, h4⟩, h5⟩ := hv
      right
      refine ⟨b, ?_, hlen, h1, h2⟩
      simp only [Option.some.injEq, Prod.mk.injEq, true_and]
      have hcanon : canonSlots (Vec.vals ⟨some (b, sl), sz, cap⟩) cap = sl := by
        unfold canonSlots
        rw [vals_some, all_isSome_eq_map _ h4]
        rw [show ((sl.take sz).map (fun o => o.getD 0)).length = sz from by
          simp; omega]
        rw [← h3, show sl.length - sz = (sl.drop sz).length from by simp,
          ← all_isNone_eq_replicate _ h5]
        exact List.take_append_drop _ _
      simp only at hcanon ⊢
      rw [hcanon]

/-- The canonical buffer shape is well-formed. -/
theorem wf_canon (b : Nat) (vs : List Int) (cap : Nat)
    (hle : vs.length ≤ cap) (hcap : cap ≠ 0) :
    wfb ⟨some (b, canonSlots vs cap), vs.length, cap⟩ = true := by
  rw [wfb_some]
  simp only [Bool.and_eq_true, decide_eq_true_eq]
  refine ⟨⟨⟨⟨hle, hcap⟩, by rw [canonSlots_length _ _ hle]⟩, ?_⟩, ?_⟩
  · unfold canonSlots
    rw [List.take_left' (by simp)]
    simp
  · unfold canonSlots
    rw [List.drop_left' (by simp)]
    simp

/-- The live values of the canonical buffer shape. -/
theorem vals_canon (b : Nat) (vs : List Int) (cap : Nat) :
    Vec.vals ⟨some (b, canonSlots vs cap), vs.length, cap⟩ = vs := by
  rw [vals_some]
  unfold canonSlots
  rw [List.take_left' (by simp)]
  rw [List.map_map,
    show ((fun o : Option Int => o.getD 0) ∘ some) = fun a : Int => a from by
      funext a; rfl]
  exact List.map_id _

/-- `vals_canon` with the size field given as an arbitrary expression
provably equal to the value count. -/
theorem vals_canon2 (b : Nat) (vs : List Int) (cap sz : Nat)
    (hsz : sz = vs.length) :
    Vec.vals ⟨some (b, canonSlots vs cap), sz, cap⟩ = vs := by
  subst hsz
  exact vals_canon b vs cap

/-- Reading a live index of a well-formed container yields the
corresponding live value. -/
theorem read_vals (v : Vec) (hv : wfb v = true) (i : Nat) (hi : i < v.size) :
    v.read i = v.vals.getD i 0 := by
  rcases wf_destruct v hv with ⟨_, hsz, _⟩ | ⟨b, hbuf, hlen, _, _⟩
  · omega
  · unfold Vec.read
    rw [hbuf]
    simp only [canonSlots]
    rw [List.getD_eq_getElem?_getD, List.getElem?_append_left (by simp; omega),
      List.getElem?_map, List.getD_eq_getElem?_getD]
    cases hx : (v.vals)[i]? with
    | none => simp [hx]
    | some a => simp [hx]

/-- Writing `some x` to the first raw slot of a canonical buffer appends
the value to the live prefix. -/
theorem canon_set (vs : List Int) (cap : Nat) (x : Int)
    (hlt : vs.length < cap) :
    (canonSlots vs cap).set vs.length (some x) = canonSlots (vs ++ [x]) cap := by
  unfold canonSlots
  obtain ⟨k, hk⟩ : ∃ k, cap - vs.length = k + 1 := ⟨cap - vs.length - 1, by omega⟩
  rw [List.set_append_right _ _ (by simp), hk, List.replicate_succ]
  simp only [List.length_map, Nat.sub_self, List.set_cons_zero]
  rw [show (vs ++ [x]).length = vs.length + 1 from by simp,
    show cap - (vs.length + 1) = k from by omega]
  simp [List.append_assoc]

/-- A successful `EmplaceBack` (enough gas for the new element plus a full
migration): no throw, size grows by one, the new value is appended, and the
capacity follows the growth policy of lines 411/423/438. -/
theorem emplace_ok (v : Vec) (x : Int) (g f : Nat)
    (hv : wfb v = true) (hg : v.size + 1 ≤ g) :
    (emplaceBack v x g f).threw = false ∧
    (emplaceBack v x g f).out.size = v.size + 1 ∧
    (emplaceBack v x g f).out.capacity =
      (if v.size < v.capacity then v.capacity
       else if v.capacity = 0 then 1 else v.capacity * 2) ∧
    (emplaceBack v x g f).out.vals = v.vals ++ [x] ∧
    wfb (emplaceBack v x g f).out = true := by
  rcases wf_destruct v hv with ⟨hbuf, hsz, hcap⟩ | ⟨b, hbuf, hlen, hle, hcap⟩
  · -- empty container: the capacity-0 growth path
    obtain ⟨buf, sz, cap⟩ := v
    simp only at hbuf hsz hcap hg ⊢
    subst hbuf hsz hcap
    have heq : emplaceBack ⟨none, 0, 0⟩ x g f =
        ⟨⟨some (f, [some x]), 1, 1⟩, false, g - 1, f + 1,
          [AEvent.alloc f 1, AEvent.construct f 0]⟩ := by
      unfold emplaceBack
      rw [if_neg (by simp), if_pos rfl, if_neg (by omega)]
      simp [List.replicate_succ]
    rw [heq]
    refine ⟨rfl, rfl, by simp, ?_, ?_⟩
    · rw [vals_none, vals_some]
      simp
    · rw [wfb_some]
      simp
  · by_cases hlt : v.size < v.capacity
    · -- in-place construction at buffer_ + size_
      have hg0 : ¬ g = 0 := by omega
      have heq : emplaceBack v x g f =
          ⟨⟨some (b, canonSlots (v.vals ++ [x]) v.capacity), v.size + 1, v.capacity⟩,
            false, g - 1, f, [AEvent.construct (bidOf v) v.size]⟩ := by
        unfold emplaceBack
        rw [if_pos hlt, if_neg hg0, hbuf]
        simp only [setSlot]
        rw [show (canonSlots v.vals v.capacity).set v.size (some x) =
            canonSlots (v.vals ++ [x]) v.capacity from by
          rw [← hlen]; exact canon_set _ _ _ (by omega)]
      rw [heq]
      refine ⟨rfl, rfl, by rw [if_pos hlt], ?_, ?_⟩
      · rw [show v.size + 1 = (v.vals ++ [x]).length from by simp; omega]
        exact vals_canon _ _ _
      · rw [show v.size + 1 = (v.vals ++ [x]).length from by simp; omega]
        exact wf_canon _ _ _ (by simp; omega) hcap
    · -- growth path: size_ == capacity_ ≠ 0
      have hsc : v.size = v.capacity := by omega
      have hg0 : ¬ g = 0 := by omega
      have hm := constructSeq_ok f v.vals
        ((List.replicate (v.capacity * 2) none).set v.size (some x)) 0 (g - 1)
        (by omega) (by simp; omega)
      have hslots :
          ((List.replicate (v.capacity * 2) none).set v.size (some x)).take 0 ++
            v.vals.map some ++
            ((List.replicate (v.capacity * 2) none).set v.size (some x)).drop
              (0 + v.vals.length) =
          canonSlots (v.vals ++ [x]) (v.capacity * 2) := by
        obtain ⟨k, hk⟩ : ∃ k, v.capacity * 2 - v.size = k + 1 :=
          ⟨v.capacity * 2 - v.size - 1, by omega⟩
        rw [List.take_zero, List.nil_append, Nat.zero_add, hlen,
          List.drop_set, if_neg (by omega), List.drop_replicate, hk,
          Nat.sub_self, List.replicate_succ, List.set_cons_zero]
        unfold canonSlots
        rw [show (v.vals ++ [x]).length = v.size + 1 from by simp; omega,
          show v.capacity * 2 - (v.size + 1) = k from by omega]
        simp [List.append_assoc]
      have heq : (emplaceBack v x g f).out =
            ⟨some (f, canonSlots (v.vals ++ [x]) (v.capacity * 2)), v.size + 1,
              v.capacity * 2⟩ ∧
          (emplaceBack v x g f).threw = false := by
        unfold emplaceBack
        rw [if_neg hlt, if_neg hcap, if_neg hg0]
        simp only [hm, hslots]
        simp
      rw [heq.1, heq.2]
      refine ⟨rfl, rfl, by rw [if_neg hlt, if_neg hcap], ?_, ?_⟩
      · rw [show v.size + 1 = (v.vals ++ [x]).length from by simp; omega]
        exact vals_canon _ _ _
      · rw [show v.size + 1 = (v.vals ++ [x]).length from by simp; omega]
        exact wf_canon _ _ _ (by simp; omega) (by omega)

/-- A run of successful `PushBack` calls preserves well-formedness, adds one
element per call, and appends the pushed values in call order. -/
theorem pushAll_spec :
    ∀ (xs : List Int) (v : Vec) (f : Nat), wfb v = true →
      wfb (pushAll v f xs) = true ∧
      (pushAll v f xs).size = v.size + xs.length ∧
      (pushAll v f xs).vals = v.vals ++ xs := by
  intro xs
  induction xs with
  | nil => intro v f hv; simp [pushAll, hv]
  | cons x xs ih =>
      intro v f hv
      have he := emplace_ok v x (v.size + 1) f hv (le_refl _)
      have hrec := ih (emplaceBack v x (v.size + 1) f).out (f + 1) he.2.2.2.2
      unfold pushAll
      refine ⟨hrec.1, ?_, ?_⟩
      · rw [hrec.2.1, he.2.1]
        simp
        omega
      · rw [hrec.2.2, he.2.2.2.1]
        simp

/-- A successful `ShrinkToFit` (enough gas for the migration): no throw, and
the result is either the empty container (when `size_ == 0`) or a fresh
buffer of exactly `size_` slots holding the same values. -/
theorem shrink_ok (v : Vec) (g f : Nat) (hv : wfb v = true) (hg : v.size ≤ g) :
    (shrinkToFit v g f).threw = false ∧
    (shrinkToFit v g f).out =
      (if v.size = 0 then Vec.empty
       else ⟨some (f, canonSlots v.vals v.size), v.size, v.size⟩) := by
  by_cases hz : v.size = 0
  · constructor
    · unfold shrinkToFit; rw [if_pos hz]
    · unfold shrinkToFit; rw [if_pos hz, if_pos hz]; rfl
  · have hlen := wf_vals_length v hv
    have hm := constructSeq_ok f v.vals (List.replicate v.size none) 0 g
      (by omega) (by simp; omega)
    have hslots : (List.replicate v.size (none : Option Int)).take 0 ++
        v.vals.map some ++
        (List.replicate v.size (none : Option Int)).drop (0 + v.vals.length) =
        canonSlots v.vals v.size := by
      rw [List.take_zero, List.nil_append, Nat.zero_add, hlen,
        List.drop_replicate, Nat.sub_self]
      unfold canonSlots
      rw [hlen, Nat.sub_self]
    constructor
    · unfold shrinkToFit
      rw [if_neg hz]
      simp only [hm, hslots]
      simp
    · unfold shrinkToFit
      rw [if_neg hz, if_neg hz]
      simp only [hm, hslots]
      simp

/-- `Resize` growth where the gas runs out during the tail-construction
loop (an element constructor throws before migration starts): the call
throws and the container is returned exactly as it was. -/
theorem resizeFill_tailfail (v : Vec) (n : Nat) (w : Int) (g f : Nat)
    (hv : wfb v = true) (hcap : v.capacity < n) (hg : g < n - v.size) :
    (resizeFill v n w g f).threw = true ∧ (resizeFill v n w g f).out = v := by
  have hle := wf_size_le v hv
  have hfail := constructSeq_fail f (List.replicate (n - v.size) w)
    (List.replicate (n * 2) none) v.size g (by simp; omega)
  constructor <;>
  · unfold resizeFill
    rw [if_neg (by omega), if_neg (by omega), if_neg (by omega)]
    simp only [hfail]
    simp

/-- `Resize` growth with enough gas: a block of `size * 2` slots is
allocated, the tail is constructed first, then the live elements migrate,
then the old elements are destroyed and the old block released; the final
state has size `n`, capacity `2n` and the old values followed by the fill
value. -/
theorem resizeFill_growth_ok (v : Vec) (n : Nat) (w : Int) (g f : Nat)
    (hv : wfb v = true) (hcap : v.capacity < n) (hg : n ≤ g) :
    (resizeFill v n w g f).threw = false ∧
    (resizeFill v n w g f).out =
      ⟨some (f, canonSlots (v.vals ++ List.replicate (n - v.size) w) (n * 2)),
        n, n * 2⟩ ∧
    (resizeFill v n w g f).tr =
      AEvent.alloc f (n * 2) ::
        ((List.range (n - v.size)).map (fun i => AEvent.construct f (v.size + i)) ++
          (List.range v.size).map (fun i => AEvent.construct f i) ++
          (List.range v.size).map (fun i => AEvent.destroy (bidOf v) i) ++
          deallocEvs v) := by
  have hle := wf_size_le v hv
  have hlen := wf_vals_length v hv
  have hc := constructSeq_ok f (List.replicate (n - v.size) w)
    (List.replicate (n * 2) none) v.size g (by simp; omega) (by simp; omega)
  have hcslots :
      (List.replicate (n * 2) (none : Option Int)).take v.size ++
        (List.replicate (n - v.size) w).map some ++
        (List.replicate (n * 2) (none : Option Int)).drop (v.size + (n - v.size)) =
      List.replicate v.size (none : Option Int) ++
        (List.replicate (n - v.size) (some w) ++
          List.replicate n (none : Option Int)) := by
    rw [List.take_replicate, List.drop_replicate, List.map_replicate,
      show min v.size (n * 2) = v.size from by omega,
      show v.size + (n - v.size) = n from by omega,
      show n * 2 - n = n from by omega]
    simp [List.append_assoc]
  have hm := constructSeq_ok f v.vals
    (List.replicate v.size (none : Option Int) ++
      (List.replicate (n - v.size) (some w) ++
        List.replicate n (none : Option Int))) 0 (g - (n - v.size))
    (by omega) (by simp; omega)
  have hmslots :
      (List.replicate v.size (none : Option Int) ++
        (List.replicate (n - v.size) (some w) ++
          List.replicate n (none : Option Int))).take 0 ++
        v.vals.map some ++
        (List.replicate v.size (none : Option Int) ++
          (List.replicate (n - v.size) (some w) ++
            List.replicate n (none : Option Int))).drop (0 + v.vals.length) =
      canonSlots (v.vals ++ List.replicate (n - v.size) w) (n * 2) := by
    rw [List.take_zero, List.nil_append, Nat.zero_add, hlen,
      List.drop_left' (by simp)]
    unfold canonSlots
    rw [List.map_append, List.map_replicate,
      show (v.vals ++ List.replicate (n - v.size) w).length = n from by
        simp; omega,
      show n * 2 - n = n from by omega]
    simp [List.append_assoc]
  have htr : (destroyRange (bidOf v) (slotsOf v) 0 v.size).2 =
      (List.range v.size).map (fun i => AEvent.destroy (bidOf v) i) := by
    rw [destroyRange_tr]
    exact List.map_congr_left (fun i _ => by rw [Nat.zero_add])
  refine ⟨?_, ?_, ?_⟩ <;>
  · unfold resizeFill
    rw [if_neg (by omega), if_neg (by omega), if_neg (by omega)]
    simp only [hc, List.length_replicate, hcslots]
    simp only [hm, hmslots]
    simp only [htr]
    simp [hlen]

/-- The `std::lexicographical_compare` loop decides exactly the
lexicographic strict order on the element sequences. -/
theorem lexCmpLoop_iff (xs : List Int) :
    ∀ ys : List Int, lexCmpLoop xs ys = true ↔
      List.Lex (fun p q : Int => p < q) xs ys := by
  induction xs with
  | nil =>
      intro ys
      cases ys with
      | nil =>
          constructor
          · intro h; simp [lexCmpLoop] at h
          · intro h; cases h
      | cons y ys =>
          constructor
          · intro _; exact List.Lex.nil
          · intro _; rfl
  | cons x xs ih =>
      intro ys
      cases ys with
      | nil =>
          constructor
          · intro h; simp [lexCmpLoop] at h
          · intro h; cases h
      | cons y ys =>
          show (if x < y then true else if y < x then false else lexCmpLoop xs ys)
              = true ↔ _
          rcases lt_trichotomy x y with h | h | h
          · rw [if_pos h]
            constructor
            · intro _; exact List.Lex.rel h
            · intro _; rfl
          · subst h
            rw [if_neg (lt_irrefl x), if_neg (lt_irrefl x), ih ys]
            constructor
            · exact List.Lex.cons
            · intro hlex
              cases hlex with
              | cons h2 => exact h2
              | rel h2 => exact absurd h2 (lt_irrefl x)
          · rw [if_neg (lt_asymm h), if_pos h]
            constructor
            · intro habs; simp at habs
            · intro hlex
              cases hlex with
              | cons h2 => exact absurd h (lt_irrefl _)
              | rel h2 => exact absurd h2 (lt_asymm h)

/-- `operator==` holds exactly when the sizes agree and the elements agree
index by index. -/
theorem vecEq_iff (a b : Vec) :
    vecEq a b = true ↔
      (a.size = b.size ∧ ∀ i, i < a.size → a.read i = b.read i) := by
  unfold vecEq
  by_cases hsz : a.size = b.size
  · rw [if_neg (by simp [hsz])]
    simp [List.all_eq_true, List.mem_range, hsz]
  · rw [if_pos hsz]
    simp [hsz]

/-- Fields of a successful `Resize` growth, packaged for the claims. -/
theorem resizeFill_growth_fields (v : Vec) (n : Nat) (w : Int) (g f : Nat)
    (hv : wfb v = true) (hcap : v.capacity < n) (hg : n ≤ g) :
    (resizeFill v n w g f).threw = false ∧
    (resizeFill v n w g f).out.size = n ∧
    (resizeFill v n w g f).out.capacity = n * 2 ∧
    (resizeFill v n w g f).out.vals = v.vals ++ List.replicate (n - v.size) w ∧
    (resizeFill v n w g f).tr =
      AEvent.alloc f (n * 2) ::
        ((List.range (n - v.size)).map (fun i => AEvent.construct f (v.size + i)) ++
          (List.range v.size).map (fun i => AEvent.construct f i) ++
          (List.range v.size).map (fun i => AEvent.destroy (bidOf v) i) ++
          deallocEvs v) := by
  have h := resizeFill_growth_ok v n w g f hv hcap hg
  have hlen := wf_vals_length v hv
  have hle := wf_size_le v hv
  refine ⟨h.1, by rw [h.2.1], by rw [h.2.1], ?_, h.2.2⟩
  rw [h.2.1]
  exact vals_canon2 f (v.vals ++ List.replicate (n - v.size) w) (n * 2) n
    (by simp; omega)

/-- C1.  The spec states that when migration of live elements into a
freshly allocated block throws partway, all elements already constructed in
the new block are destroyed before the failure is re-raised.  The code's
`MoveIterTo` catch block (line 548) only rethrows, and no caller destroys
the migrated prefix either.  Evaluating `Reserve(5)` on a well-formed
two-element container whose second migration construct throws: the element
constructed at slot 0 of new block 9 is never destroyed (and the new block
is never deallocated), though the old buffer does keep the original
elements and the failure is propagated. -/
theorem c1_migration_cleanup_missing :
    wfb ⟨some (0, [some 1, some 2]), 2, 2⟩ = true ∧
    (reserve ⟨some (0, [some 1, some 2]), 2, 2⟩ 5 1 9).threw = true ∧
    (reserve ⟨some (0, [some 1, some 2]), 2, 2⟩ 5 1 9).out =
      ⟨some (0, [some 1, some 2]), 2, 2⟩ ∧
    constructCount (reserve ⟨some (0, [some 1, some 2]), 2, 2⟩ 5 1 9).tr 9 0 = 1 ∧
    destroyCount (reserve ⟨some (0, [some 1, some 2]), 2, 2⟩ 5 1 9).tr 9 0 = 0 ∧
    deallocList (reserve ⟨some (0, [some 1, some 2]), 2, 2⟩ 5 1 9).tr 9 = [] := by
  decide

/-- C2.  The spec states that a failed `EmplaceBack` destroys no element
that was never constructed.  Evaluating `EmplaceBack` on a well-formed
container with `size == 1 < capacity == 2` whose element construction
throws (gas 0): the catch block at line 415 emits `destroy` for slot 1 of
block 3, a slot for which no `construct` ever succeeded.  (The same rogue
`destroy` occurs on both growth paths, lines 432 and 452.)  The container's
observable state is otherwise restored and the failure propagated. -/
theorem c2_destroys_unconstructed_slot :
    wfb ⟨some (3, [some 7, none]), 1, 2⟩ = true ∧
    (emplaceBack ⟨some (3, [some 7, none]), 1, 2⟩ 9 0 5).threw = true ∧
    (emplaceBack ⟨some (3, [some 7, none]), 1, 2⟩ 9 0 5).tr =
      [AEvent.destroy 3 1] ∧
    constructCount (emplaceBack ⟨some (3, [some 7, none]), 1, 2⟩ 9 0 5).tr 3 1 = 0 ∧
    destroyCount (emplaceBack ⟨some (3, [some 7, none]), 1, 2⟩ 9 0 5).tr 3 1 = 1 ∧
    (emplaceBack ⟨some (3, [some 7, none]), 1, 2⟩ 9 0 5).out.size = 1 ∧
    (emplaceBack ⟨some (3, [some 7, none]), 1, 2⟩ 9 0 5).out.capacity = 2 := by
  decide

/-- C3.  If an element's default (or fill) constructor throws during
`Resize(n)` / `Resize(n, value)` growth (`n > capacity`), the failure is
propagated and the container — size, capacity and every element value — is
exactly what it was before the call. -/
theorem c3_resize_growth_strong_safety (v : Vec) (n : Nat) (w : Int) (g f : Nat)
    (hv : wfb v = true) (hcap : v.capacity < n) (hg : g < n - v.size) :
    (resizeD v n g f).threw = true ∧
    (resizeD v n g f).out = v ∧
    (resizeD v n g f).out.size = v.size ∧
    (resizeD v n g f).out.capacity = v.capacity ∧
    (resizeD v n g f).out.vals = v.vals ∧
    (resizeV v n w g f).threw = true ∧
    (resizeV v n w g f).out = v := by
  unfold resizeD resizeV
  have h0 := resizeFill_tailfail v n 0 g f hv hcap hg
  have hw := resizeFill_tailfail v n w g f hv hcap hg
  exact ⟨h0.1, h0.2, by rw [h0.2], by rw [h0.2], by rw [h0.2], hw.1, hw.2⟩

theorem c3_resize_growth_strong_safety_witness :
    (resizeD ⟨some (0, [some 1, some 2]), 2, 2⟩ 4 1 9).threw = true ∧
    (resizeD ⟨some (0, [some 1, some 2]), 2, 2⟩ 4 1 9).out =
      ⟨some (0, [some 1, some 2]), 2, 2⟩ :=
  ⟨(c3_resize_growth_strong_safety ⟨some (0, [some 1, some 2]), 2, 2⟩ 4 7 1 9
      (by decide) (by decide) (by decide)).1,
    (c3_resize_growth_strong_safety ⟨some (0, [some 1, some 2]), 2, 2⟩ 4 7 1 9
      (by decide) (by decide) (by decide)).2.1⟩

/-- C4.  `Resize(n)` / `Resize(n, value)` growth allocates a block of
exactly `n * 2` slots (the `alloc` event carries `n * 2`, not twice the old
capacity), constructs the `n - size` tail elements first, then migrates the
`size` existing elements, then destroys the old elements and releases the
old block — the trace lists these phases in order — ending with size `n`
and capacity `2n`. -/
theorem c4_resize_growth_spec (v : Vec) (n : Nat) (w : Int) (g f : Nat)
    (hv : wfb v = true) (hcap : v.capacity < n) (hg : n ≤ g) :
    (resizeD v n g f).threw = false ∧
    (resizeD v n g f).out.size = n ∧
    (resizeD v n g f).out.capacity = n * 2 ∧
    (resizeD v n g f).out.vals = v.vals ++ List.replicate (n - v.size) 0 ∧
    (resizeD v n g f).tr =
      AEvent.alloc f (n * 2) ::
        ((List.range (n - v.size)).map (fun i => AEvent.construct f (v.size + i)) ++
          (List.range v.size).map (fun i => AEvent.construct f i) ++
          (List.range v.size).map (fun i => AEvent.destroy (bidOf v) i) ++
          deallocEvs v) ∧
    (resizeV v n w g f).threw = false ∧
    (resizeV v n w g f).out.size = n ∧
    (resizeV v n w g f).out.capacity = n * 2 ∧
    (resizeV v n w g f).out.vals = v.vals ++ List.replicate (n - v.size) w ∧
    (resizeV v n w g f).tr =
      AEvent.alloc f (n * 2) ::
        ((List.range (n - v.size)).map (fun i => AEvent.construct f (v.size + i)) ++
          (List.range v.size).map (fun i => AEvent.construct f i) ++
          (List.range v.size).map (fun i => AEvent.destroy (bidOf v) i) ++
          deallocEvs v) := by
  unfold resizeD resizeV
  have h0 := resizeFill_growth_fields v n 0 g f hv hcap hg
  have hw := resizeFill_growth_fields v n w g f hv hcap hg
  exact ⟨h0.1, h0.2.1, h0.2.2.1, h0.2.2.2.1, h0.2.2.2.2,
    hw.1, hw.2.1, hw.2.2.1, hw.2.2.2.1, hw.2.2.2.2⟩

theorem c4_resize_growth_spec_witness :
    (resizeD ⟨some (0, [some 1, some 2]), 2, 2⟩ 3 5 9).out.size = 3 ∧
    (resizeV ⟨some (0, [some 1, some 2]), 2, 2⟩ 3 7 5 9).out.capacity = 3 * 2 :=
  ⟨(c4_resize_growth_spec ⟨some (0, [some 1, some 2]), 2, 2⟩ 3 7 5 9
      (by decide) (by decide) (by decide)).2.1,
    (c4_resize_growth_spec ⟨some (0, [some 1, some 2]), 2, 2⟩ 3 7 5 9
      (by decide) (by decide) (by decide)).2.2.2.2.2.2.2.1⟩

/-- C5.  A run of successful `PushBack` calls from a default-constructed
container yields `size` equal to the number of calls with the pushed values
at indices `0 .. size` in call order; one `EmplaceBack` grows the capacity
from `0` to `1`, doubles it when `size == capacity`, and keeps it
otherwise; three pushes onto an empty container give size 3, the capacity
sequence 1, 2, 4, and the elements readable in push order. -/
theorem c5_pushback_spec (f : Nat) (xs : List Int) (v : Vec) (x : Int)
    (g h : Nat) (hv : wfb v = true) (hg : v.size + 1 ≤ g) :
    (pushAll Vec.empty f xs).size = xs.length ∧
    (pushAll Vec.empty f xs).vals = xs ∧
    (∀ i, i < xs.length → (pushAll Vec.empty f xs).read i = xs.getD i 0) ∧
    (emplaceBack v x g h).threw = false ∧
    (emplaceBack v x g h).out.size = v.size + 1 ∧
    (emplaceBack v x g h).out.capacity =
      (if v.size < v.capacity then v.capacity
       else if v.capacity = 0 then 1 else v.capacity * 2) ∧
    (pushAll Vec.empty 0 [1, 2, 3]).size = 3 ∧
    (pushAll Vec.empty 0 [1]).capacity = 1 ∧
    (pushAll Vec.empty 0 [1, 2]).capacity = 2 ∧
    (pushAll Vec.empty 0 [1, 2, 3]).capacity = 4 ∧
    (pushAll Vec.empty 0 [1, 2, 3]).read 0 = 1 ∧
    (pushAll Vec.empty 0 [1, 2, 3]).read 1 = 2 ∧
    (pushAll Vec.empty 0 [1, 2, 3]).read 2 = 3 := by
  have hp := pushAll_spec xs Vec.empty f (by decide)
  have he := emplace_ok v x g h hv hg
  have hsz : (pushAll Vec.empty f xs).size = xs.length := by
    rw [hp.2.1]
    simp [Vec.empty]
  have hvals : (pushAll Vec.empty f xs).vals = xs := by
    rw [hp.2.2]
    rfl
  refine ⟨hsz, hvals, ?_, he.1, he.2.1, he.2.2.1,
    by decide, by decide, by decide, by decide, by decide, by decide, by decide⟩
  intro i hi
  rw [read_vals _ hp.1 i (by omega), hvals]

theorem c5_pushback_spec_witness :
    (pushAll Vec.empty 7 [4, 5]).vals = [4, 5] :=
  (c5_pushback_spec 7 [4, 5] Vec.empty 0 1 0 (by decide) (by decide)).2.1

/-- C6.  The spec states that every block obtained from the allocator is
deallocated exactly once, with the count it was allocated with, on every
exit path.  Two failing evaluations: `Resize(3)` on a two-element container
whose migration throws deallocates new block 9 with count 2 though it was
allocated with count 6 (line 296 passes the old `capacity_`); and
`ShrinkToFit` whose migration throws never deallocates new block 9 at all
(the catch at lines 401-405 restores the backups and leaks the block). -/
theorem c6_dealloc_mismatch_and_leak :
    ((resizeD ⟨some (0, [some 1, some 2]), 2, 2⟩ 3 2 9).threw = true ∧
      allocList (resizeD ⟨some (0, [some 1, some 2]), 2, 2⟩ 3 2 9).tr 9 = [6] ∧
      deallocList (resizeD ⟨some (0, [some 1, some 2]), 2, 2⟩ 3 2 9).tr 9 = [2]) ∧
    ((shrinkToFit ⟨some (0, [some 1, some 2, none, none]), 2, 4⟩ 1 9).threw = true ∧
      allocList (shrinkToFit ⟨some (0, [some 1, some 2, none, none]), 2, 4⟩ 1 9).tr 9 = [2] ∧
      deallocList (shrinkToFit ⟨some (0, [some 1, some 2, none, none]), 2, 4⟩ 1 9).tr 9 = []) := by
  decide

/-- C7.  The spec's invariant 2 says the buffer is null iff the capacity is
zero, and that every public operation preserves the invariants.  The copy
constructor (lines 83-99) allocates only when `size_ != 0`: copying a
well-formed container with `size == 0` and `capacity == 5` (such as an
empty container after `Reserve(5)`) succeeds but leaves the copy with a
null buffer and capacity 5 — `wfb` is false for the result. -/
theorem c7_invariant_violated_by_copy :
    wfb ⟨some (1, [none, none, none, none, none]), 0, 5⟩ = true ∧
    (copyCtor ⟨some (1, [none, none, none, none, none]), 0, 5⟩ 9 4).threw = false ∧
    (copyCtor ⟨some (1, [none, none, none, none, none]), 0, 5⟩ 9 4).out.buffer = none ∧
    (copyCtor ⟨some (1, [none, none, none, none, none]), 0, 5⟩ 9 4).out.capacity = 5 ∧
    wfb (copyCtor ⟨some (1, [none, none, none, none, none]), 0, 5⟩ 9 4).out = false := by
  decide

/-- C8.  A successful `ShrinkToFit` leaves `capacity == size` (freeing the
buffer entirely when the size is zero), keeping the size and element values;
a second successful call changes none of the observable state (size,
capacity, values). -/
theorem c8_shrink_idempotent (v : Vec) (g1 g2 f1 f2 : Nat)
    (hv : wfb v = true) (h1 : v.size ≤ g1) (h2 : v.size ≤ g2) :
    (shrinkToFit v g1 f1).threw = false ∧
    (shrinkToFit v g1 f1).out.capacity = (shrinkToFit v g1 f1).out.size ∧
    (shrinkToFit v g1 f1).out.size = v.size ∧
    (shrinkToFit v g1 f1).out.vals = v.vals ∧
    (v.size = 0 → (shrinkToFit v g1 f1).out.buffer = none) ∧
    (shrinkToFit (shrinkToFit v g1 f1).out g2 f2).threw = false ∧
    (shrinkToFit (shrinkToFit v g1 f1).out g2 f2).out.size =
      (shrinkToFit v g1 f1).out.size ∧
    (shrinkToFit (shrinkToFit v g1 f1).out g2 f2).out.capacity =
      (shrinkToFit v g1 f1).out.capacity ∧
    (shrinkToFit (shrinkToFit v g1 f1).out g2 f2).out.vals =
      (shrinkToFit v g1 f1).out.vals := by
  have hlen := wf_vals_length v hv
  have hs1 := shrink_ok v g1 f1 hv h1
  by_cases hz : v.size = 0
  · have hnil : v.vals = [] := List.length_eq_zero.mp (by omega)
    rw [hs1.2, if_pos hz]
    have hs2 := shrink_ok Vec.empty g2 f2 (by decide) (Nat.zero_le _)
    rw [hs2.2]
    exact ⟨hs1.1, rfl, by rw [hz]; rfl, by rw [hnil]; rfl, fun _ => rfl,
      hs2.1, rfl, rfl, rfl⟩
  · rw [hs1.2, if_neg hz]
    have hw1 : wfb ⟨some (f1, canonSlots v.vals v.size), v.size, v.size⟩ = true := by
      rw [show v.size = v.vals.length from hlen.symm]
      exact wf_canon _ _ _ (le_refl _) (by omega)
    have hv1 : Vec.vals ⟨some (f1, canonSlots v.vals v.size), v.size, v.size⟩ =
        v.vals := by
      rw [show v.size = v.vals.length from hlen.symm]
      exact vals_canon _ _ _
    have hs2 := shrink_ok ⟨some (f1, canonSlots v.vals v.size), v.size, v.size⟩
      g2 f2 hw1 h2
    rw [hs2.2]
    rw [show Vec.size ⟨some (f1, canonSlots v.vals v.size), v.size, v.size⟩ = v.size
      from rfl, if_neg hz]
    have hv2 : Vec.vals ⟨some (f2, canonSlots
        (Vec.vals ⟨some (f1, canonSlots v.vals v.size), v.size, v.size⟩)
        v.size), v.size, v.size⟩ = v.vals := by
      rw [hv1, show v.size = v.vals.length from hlen.symm]
      exact vals_canon _ _ _
    exact ⟨hs1.1, rfl, rfl, hv1, fun habs => absurd habs hz, hs2.1, rfl, rfl,
      by rw [hv2, hv1]⟩

theorem c8_shrink_idempotent_witness :
    (shrinkToFit ⟨some (0, [some 1, some 2, none, none]), 2, 4⟩ 5 9).out.capacity =
      (shrinkToFit ⟨some (0, [some 1, some 2, none, none]), 2, 4⟩ 5 9).out.size :=
  (c8_shrink_idempotent ⟨some (0, [some 1, some 2, none, none]), 2, 4⟩ 5 5 9 10
    (by decide) (by decide) (by decide)).2.1

/-- C9.  Move construction and move assignment never fail (they are total
functions performing no fallible allocator call), transfer the buffer
pointer, size and capacity wholesale — so the destination holds exactly the
source's former elements at the same addresses (same block id) — and leave
the source empty with a null buffer, size 0 and capacity 0, a valid state. -/
theorem c9_move_transfer (v w : Vec) :
    (moveCtor v).1 = v ∧
    (moveCtor v).2 = Vec.empty ∧
    (moveCtor v).2.buffer = none ∧
    (moveCtor v).2.size = 0 ∧
    (moveCtor v).2.capacity = 0 ∧
    wfb (moveCtor v).2 = true ∧
    (moveCtor v).1.buffer = v.buffer ∧
    (moveCtor v).1.vals = v.vals ∧
    (moveAssign w v).1 = v ∧
    (moveAssign w v).2.1 = Vec.empty ∧
    wfb (moveAssign w v).2.1 = true :=
  ⟨rfl, rfl, rfl, rfl, rfl, rfl, rfl, rfl, rfl, rfl, rfl⟩

theorem c9_move_transfer_witness :
    (moveCtor ⟨some (0, [some 1, some 2]), 2, 2⟩).1 =
      ⟨some (0, [some 1, some 2]), 2, 2⟩ :=
  (c9_move_transfer ⟨some (0, [some 1, some 2]), 2, 2⟩ Vec.empty).1

/-- C10.  `operator==` holds iff the sizes agree and the elements agree
pairwise; `operator<` decides the lexicographic order induced by pairwise
`<` on elements; `!=`, `>`, `<=`, `>=` are the stated derivations; and
`{5,4,3,2,1} < {5,4,3,2,2}` evaluates to `true` (tie on the first four
elements, `1 < 2` at the fifth). -/
theorem c10_comparisons (a b : Vec) :
    (vecEq a b = true ↔
      (a.size = b.size ∧ ∀ i, i < a.size → a.read i = b.read i)) ∧
    (vecLt a b = true ↔
      List.Lex (fun p q : Int => p < q) (seqVals a) (seqVals b)) ∧
    vecNe a b = !vecEq a b ∧
    vecGt a b = vecLt b a ∧
    vecLe a b = !vecLt b a ∧
    vecGe a b = !vecLt a b ∧
    vecLt ⟨some (0, [some 5, some 4, some 3, some 2, some 1]), 5, 5⟩
      ⟨some (1, [some 5, some 4, some 3, some 2, some 2]), 5, 5⟩ = true :=
  ⟨vecEq_iff a b, lexCmpLoop_iff (seqVals a) (seqVals b), rfl, rfl, rfl, rfl,
    by decide⟩

theorem c10_comparisons_witness :
    vecGt ⟨some (0, [some 1]), 1, 1⟩ Vec.empty =
      vecLt Vec.empty ⟨some (0, [some 1]), 1, 1⟩ :=
  (c10_comparisons ⟨some (0, [some 1]), 1, 1⟩ Vec.empty).2.2.2.1

end CVec
